import Mathlib

/-!
Verification of the basecamp repository-acquisition engine.

This file gives a shallow embedding, in Lean, of the core of the basecamp
CLI (src/git.rs, src/config.rs, src/commands/install.rs, src/commands/add.rs)
and proves properties of that embedding.

Rust string operations (`split`, `starts_with`, `ends_with`, `trim`,
`replace`, `split_whitespace`) are embedded as structurally recursive
functions over `String.data`, so that every definition evaluates inside the
kernel.  Filesystem and network effects are passed in explicitly: the
credential callback receives an `SshEnv` describing the `.ssh` directory and
the agent, and the parallel clone loop receives a `CloneEnv` assigning to
each repository name the outcome of its acquisition.
-/

namespace Basecamp

/-- Decidable equality for `Except`, used to evaluate concrete runs of the
embedded fallible operations. -/
instance decEqExcept {ε α : Type} [DecidableEq ε] [DecidableEq α] : DecidableEq (Except ε α)
  | Except.error x, Except.error y => decidable_of_iff (x = y) (by simp)
  | Except.error _, Except.ok _ => Decidable.isFalse (by simp)
  | Except.ok _, Except.error _ => Decidable.isFalse (by simp)
  | Except.ok x, Except.ok y => decidable_of_iff (x = y) (by simp)

/-! ## Rust string primitives over `String.data` -/

/-- Rust `str::starts_with`. -/
def chStartsWith (s p : String) : Bool := p.data.isPrefixOf s.data

/-- Rust `str::ends_with`. -/
def chEndsWith (s p : String) : Bool := p.data.isSuffixOf s.data

/-- Worker for `rsSplit`: splits at the leftmost, non-overlapping occurrences
of `sep`, accumulating the current token in reverse.  The fuel argument is an
upper bound on the number of characters still to be consumed, which makes the
recursion structural. -/
def splitOnAuxF (sep : List Char) : Nat → List Char → List Char → List (List Char)
  | 0, l, acc => [acc.reverse ++ l]
  | _ + 1, [], acc => [acc.reverse]
  | fuel + 1, c :: rest, acc =>
      if sep.isPrefixOf (c :: rest) then
        acc.reverse :: splitOnAuxF sep fuel (List.drop sep.length (c :: rest)) []
      else
        splitOnAuxF sep fuel rest (c :: acc)

/-- Rust `str::split` with a non-empty string pattern: substrings between
non-overlapping, leftmost-first matches of `sep`, keeping empty tokens. -/
def rsSplit (s sep : String) : List String :=
  (splitOnAuxF sep.data (s.data.length + 1) s.data []).map (fun l => String.mk l)

/-- Rust `str::trim`: drop whitespace from both ends. -/
def rsTrim (s : String) : String :=
  String.mk (((s.data.dropWhile Char.isWhitespace).reverse.dropWhile Char.isWhitespace).reverse)

/-- Join a list of strings with a separator, as produced by Rust
`Vec::join` / `format!` interleaving. -/
def joinSep (sep : String) : List String → String
  | [] => ""
  | [x] => x
  | x :: xs => x ++ sep ++ joinSep sep xs

/-- Rust `str::replace`: replace every non-overlapping occurrence of `pat`
by `rep`. -/
def rsReplace (s pat rep : String) : String :=
  joinSep rep (rsSplit s pat)

/-- Worker for `rsSplitWhitespace`: split at every character satisfying the
predicate, keeping empty tokens. -/
def splitPredAux (p : Char → Bool) : List Char → List Char → List (List Char)
  | [], acc => [acc.reverse]
  | c :: rest, acc =>
      if p c then acc.reverse :: splitPredAux p rest []
      else splitPredAux p rest (c :: acc)

/-- Rust `str::split_whitespace`: tokens separated by whitespace runs, with
empty tokens dropped. -/
def rsSplitWhitespace (s : String) : List String :=
  ((splitPredAux Char.isWhitespace s.data []).filter (fun l => !l.isEmpty)).map String.mk

/-! ## git.rs: username inference and URL construction -/

/-- The SSH username inference of `GitRepo::clone` (src/git.rs:24-32): for a
URL starting with `git@`, take the part after the first `@` and before the
first `:` thereafter (`url.split('@').nth(1).and_then(|s| s.split(':').next())`),
defaulting to `"git"`. -/
def inferUsername (url : String) : String :=
  if chStartsWith url "git@" then
    match (rsSplit url "@")[1]? with
    | some s =>
        match (rsSplit s ":").head? with
        | some u => u
        | none => "git"
    | none => "git"
  else "git"

/-- `GitRepo::build_repo_url` (src/git.rs:250-280). -/
def buildRepoUrl (githubUrl repoName : String) : String :=
  if chStartsWith githubUrl "https://" then
    let baseUrl := if chEndsWith githubUrl "/" then githubUrl else githubUrl ++ "/"
    baseUrl ++ repoName ++ ".git"
  else if chStartsWith githubUrl "git@" then
    match rsSplit githubUrl ":" with
    | [host, p] =>
        let path := if chEndsWith p "/" then p else p ++ "/"
        host ++ ":" ++ path ++ repoName ++ ".git"
    | _ => githubUrl ++ "/" ++ repoName ++ ".git"
  else githubUrl ++ "/" ++ repoName ++ ".git"

/-- Modelled from the spec: "if the base is an HTTPS-style URL". -/
def isHttpsStyle (base : String) : Bool := chStartsWith base "https://"

/-- Modelled from the spec: "if the base is an SSH-style `host:path` URL",
read as a `git@` URL consisting of exactly one host part and one path part
separated by a colon. -/
def isSshHostPath (base : String) : Bool :=
  chStartsWith base "git@" && (rsSplit base ":").length == 2

/-- Modelled from the spec: "with a trailing '/' ensured". -/
def ensureTrailingSlash (s : String) : String :=
  if chEndsWith s "/" then s else s ++ "/"

/-- Modelled from the spec's URL construction rule (spec section 6): HTTPS
base gives `base (with trailing '/') + name + ".git"`; SSH `host:path` base
gives `host:path (with trailing '/' on the path) + name + ".git"`; any other
form gives `base + "/" + name + ".git"`. -/
def buildRepoUrlSpec (base repoName : String) : String :=
  if isHttpsStyle base then ensureTrailingSlash base ++ repoName ++ ".git"
  else if isSshHostPath base then
    ((rsSplit base ":").headD "") ++ ":"
      ++ ensureTrailingSlash (((rsSplit base ":")[1]?).getD "")
      ++ repoName ++ ".git"
  else base ++ "/" ++ repoName ++ ".git"

/-! ## git.rs: the credential callback -/

/-- One credential value handed back to the transport by the callback. -/
inductive CredResult where
  | exhausted
  | defaultCred
  | agentCred (username : String)
  | sshKeyCred (username : String) (withPub : Bool) (key pub : String)
deriving DecidableEq

/-- The parts of the environment read by the credential callback: the home
directory, the contents of `~/.ssh/config` when readable, the keys found by
scanning the `.ssh` directory (src/git.rs:101-121, filesystem dependent),
whether the agent holds a key for a username, whether a path exists, and
whether `Cred::ssh_key` succeeds with and without a public key. -/
structure SshEnv where
  home : String
  sshConfig : Option String
  dirKeys : List (String × String)
  agentOk : String → Bool
  fileExists : String → Bool
  sshKeyWithPubOk : String → String → String → Bool
  sshKeyNoPubOk : String → String → Bool

/-- The `.ssh` directory path (src/git.rs:69-70). -/
def sshDir (env : SshEnv) : String := env.home ++ "/.ssh"

/-- The six standard key file names pushed unconditionally
(src/git.rs:76-83). -/
def standardKeyNames : List String :=
  ["id_ed25519", "id_rsa", "id_ecdsa", "id_dsa", "github_rsa", "github_ed25519"]

/-- The six standard `(key, key.pub)` path pairs (src/git.rs:76-83). -/
def standardKeyAttempts (dir : String) : List (String × String) :=
  standardKeyNames.map (fun n => (dir ++ "/" ++ n, dir ++ "/" ++ n ++ ".pub"))

/-- The `IdentityFile` entries parsed from the SSH client configuration
(src/git.rs:86-99): for every line whose trimmed form starts with
`IdentityFile` and that has a second whitespace-separated field, push the
field with `~` replaced by the home directory, paired with its `.pub`
sibling. -/
def parseIdentityFiles (home content : String) : List (String × String) :=
  (rsSplit content "\n").foldl (fun acc line =>
    if chStartsWith (rsTrim line) "IdentityFile" then
      match (rsSplitWhitespace line)[1]? with
      | some p =>
          let identityPath := rsReplace p "~" home
          acc ++ [(identityPath, identityPath ++ ".pub")]
      | none => acc
    else acc) []

/-- The full candidate key list built on every callback invocation
(src/git.rs:73-121): the six standard pairs, then the SSH-config pairs, then
the directory-scan pairs. -/
def keyAttemptsList (env : SshEnv) : List (String × String) :=
  standardKeyAttempts (sshDir env)
    ++ (match env.sshConfig with
        | some content => parseIdentityFiles env.home content
        | none => [])
    ++ env.dirKeys

/-- The credential callback of `GitRepo::clone` (src/git.rs:40-156) for one
invocation: `currentAttempt` is the value of the attempt counter read at
entry (the counter increment is implicit in the caller passing successive
values).  Returns `Except.error` exactly where the Rust callback returns
`Err(git2::Error::from_str(...))`. -/
def credentialCallback (env : SshEnv) (urlUsername : String) (currentAttempt : Nat)
    (usernameFromUrl : Option String) (allowsUserPassPlaintext : Bool) :
    Except String CredResult :=
  if 5 < currentAttempt then
    Except.error "Too many authentication attempts"
  else
    let username := usernameFromUrl.getD urlUsername
    if allowsUserPassPlaintext then Except.ok CredResult.defaultCred
    else if currentAttempt = 0 && env.agentOk username then
      Except.ok (CredResult.agentCred username)
    else
      let ka := keyAttemptsList env
      let adjusted := if currentAttempt = 0 then 0 else currentAttempt - 1
      let keyIndex := adjusted % ka.length
      match ka[keyIndex]? with
      | some kp =>
          if env.fileExists kp.1 then
            if env.fileExists kp.2 && env.sshKeyWithPubOk username kp.2 kp.1 then
              Except.ok (CredResult.sshKeyCred username true kp.1 kp.2)
            else if env.sshKeyNoPubOk username kp.1 then
              Except.ok (CredResult.sshKeyCred username false kp.1 kp.2)
            else Except.ok CredResult.defaultCred
          else Except.ok CredResult.defaultCred
      | none => Except.ok CredResult.defaultCred

/-- An SSH environment with no agent, no readable config, no files: the
"zero usable keys" situation. -/
def emptySshEnv : SshEnv :=
  ⟨"/root", none, [], fun _ => false, fun _ => false, fun _ _ _ => false, fun _ _ => false⟩

/-- An SSH environment whose agent answers every username. -/
def agentAlwaysSshEnv : SshEnv :=
  ⟨"/root", none, [], fun _ => true, fun _ => false, fun _ _ _ => false, fun _ _ => false⟩

/-! ## Theorems for C3, C4, C5, C10 -/

/-- C3: the credential callback terminates the retry sequence with the
exhausted error once the attempt index reaches 6, for every environment,
every username source and every allowed-type set, so a transport that keeps
re-requesting credentials cannot loop forever: by attempt index 6 at the
latest the callback returns the exhausted error. -/
theorem credential_callback_hard_cap (env : SshEnv) (urlUsername : String)
    (i : Nat) (fromUrl : Option String) (plain : Bool) (h : 6 ≤ i) :
    credentialCallback env urlUsername i fromUrl plain
      = Except.error "Too many authentication attempts" := by
  have h5 : 5 < i := by omega
  unfold credentialCallback
  simp [h5]

/-- Witness for C3: with zero usable keys, the callback invocation with
attempt index 6 returns the exhausted error. -/
theorem credential_callback_hard_cap_witness :
    credentialCallback emptySshEnv "git" 6 none false
      = Except.error "Too many authentication attempts" :=
  credential_callback_hard_cap emptySshEnv "git" 6 none false (by decide)

/-- C4 exhibit: for the SSH remote `git@github.com:acme/widgets`, the code
infers the host part `github.com` (the text after the `@` sign), not the
user part `git` before the `@` sign, and on attempt index 0 with no
transport-supplied username it requests the SSH-agent credential for
`github.com`. -/
theorem infer_username_takes_host :
    inferUsername "git@github.com:acme/widgets" = "github.com"
    ∧ inferUsername "git@github.com:acme/widgets" ≠ "git"
    ∧ credentialCallback agentAlwaysSshEnv (inferUsername "git@github.com:acme/widgets")
        0 none false = Except.ok (CredResult.agentCred "github.com") := by
  refine ⟨by decide, by decide, by decide⟩

/-- C5: `build_repo_url` agrees with the spec's URL construction rule on
every base URL and repository name. -/
theorem build_repo_url_matches_spec (base repoName : String) :
    buildRepoUrl base repoName = buildRepoUrlSpec base repoName := by
  unfold buildRepoUrl buildRepoUrlSpec isHttpsStyle isSshHostPath ensureTrailingSlash
  cases h1 : chStartsWith base "https://" with
  | true => simp [h1]
  | false =>
      cases h2 : chStartsWith base "git@" with
      | false => simp [h1, h2]
      | true =>
          cases hs : rsSplit base ":" with
          | nil => simp [h1, h2, hs]
          | cons a t =>
              cases t with
              | nil => simp [h1, h2, hs]
              | cons b t2 =>
                  cases t2 with
                  | nil => simp [h1, h2, hs]
                  | cons c t3 => simp [h1, h2, hs]

/-- C10: on every invocation that reaches key-file selection, the candidate
list starts with the six unconditional standard pairs, hence has length at
least 6; the modulo therefore never divides by zero and the selected index
is within bounds. -/
theorem key_attempts_nonempty_and_index_in_bounds (env : SshEnv) (currentAttempt : Nat) :
    (∃ rest, keyAttemptsList env = standardKeyAttempts (sshDir env) ++ rest)
    ∧ 6 ≤ (keyAttemptsList env).length
    ∧ ((if currentAttempt = 0 then 0 else currentAttempt - 1) % (keyAttemptsList env).length
        < (keyAttemptsList env).length) := by
  have hlen : (keyAttemptsList env).length
      = 6 + ((match env.sshConfig with
              | some content => parseIdentityFiles env.home content
              | none => []).length + env.dirKeys.length) := by
    simp [keyAttemptsList, standardKeyAttempts, standardKeyNames]
    omega
  refine ⟨⟨(match env.sshConfig with
            | some content => parseIdentityFiles env.home content
            | none => []) ++ env.dirKeys, by simp [keyAttemptsList]⟩, by omega, ?_⟩
  exact Nat.mod_lt _ (by omega)

/-! ## Error type (src/error.rs), restricted to the variants the embedded
operations construct -/

inductive BasecampError where
  | repositoryNotFound (repo codebase : String)
  | codebaseNotFound (codebase : String)
  | gitHubUrlNotConfigured
  | commandFailed (msg : String)
  | generic (msg : String)
deriving DecidableEq

/-! ## install.rs: the parallel clone loop -/

/-- Outcome of one repository acquisition, as classified by the worker loop
in `clone_repositories` (src/commands/install.rs:174-196): the local path
already exists, the clone succeeded, or the clone failed with a reason. -/
inductive CloneOutcome where
  | alreadyPresent
  | cloned
  | failed (reason : String)
deriving DecidableEq

/-- The external world seen by one batch: for every repository name, the
outcome its acquisition would have (existence of the local path, success or
failure of `GitRepo::clone`). -/
def CloneEnv := String → CloneOutcome

/-- The shared mutable state of the worker pool: the
`already_installed_repos` list, the list of repositories whose clone
succeeded (observable as the jobs that took the `Ok` branch), the shared
`errors` list of `(repo, message)` pairs, and the `completed_repos`
counter. -/
structure InstallState where
  alreadyInstalled : List String
  clonedRepos : List String
  errors : List (String × String)
  completed : Nat
deriving DecidableEq

/-- The state before any worker has reported. -/
def initialInstallState : InstallState := ⟨[], [], [], 0⟩

/-- The per-repository failure message pushed into the shared error list
(src/commands/install.rs:189). -/
def cloneErrorMsg (repo reason : String) : String :=
  "Failed to clone repository \x27" ++ repo ++ "\x27: " ++ reason

/-- One worker iteration on one job (src/commands/install.rs:163-204):
record the outcome in the matching bucket and advance the completed
counter. -/
def processRepo (env : CloneEnv) (s : InstallState) (repo : String) : InstallState :=
  match env repo with
  | CloneOutcome.alreadyPresent =>
      { s with alreadyInstalled := s.alreadyInstalled ++ [repo], completed := s.completed + 1 }
  | CloneOutcome.cloned =>
      { s with clonedRepos := s.clonedRepos ++ [repo], completed := s.completed + 1 }
  | CloneOutcome.failed reason =>
      { s with errors := s.errors ++ [(repo, cloneErrorMsg repo reason)],
               completed := s.completed + 1 }

/-- The aggregate effect of the workers draining the job queue in the order
`order`.  Concurrency only permutes `order`; each index is taken exactly
once under the queue lock, so every schedule is some permutation of the
batch. -/
def processJobs (env : CloneEnv) (order : List String) : InstallState :=
  order.foldl (processRepo env) initialInstallState

/-- The worker count actually spawned:
`std::cmp::min(parallel_count, total_repos)` (src/commands/install.rs:100,
spawn loop at line 140). -/
def effectiveParallelism (parallelCount totalRepos : Nat) : Nat :=
  min parallelCount totalRepos

/-- The jobs collectively taken from the queue: with zero spawned workers
nothing is ever taken; with at least one worker the loop runs until the
queue is empty, so every job is taken. -/
def processedJobs (workers : Nat) (repos : List String) : List String :=
  if workers = 0 then [] else repos

/-- The shared state after the join barrier of `clone_repositories`, for the
canonical queue order. -/
def cloneBatchState (parallelCount : Nat) (env : CloneEnv) (repos : List String) :
    InstallState :=
  processJobs env (processedJobs (effectiveParallelism parallelCount repos.length) repos)

/-- The `newly_installed` count computed after the join barrier
(src/commands/install.rs:218):
`total_repos - already_installed.len() - errors.len()`. -/
def newlyInstalledCount (totalRepos : Nat) (s : InstallState) : Nat :=
  totalRepos - s.alreadyInstalled.length - s.errors.length

/-- `clone_repositories` (src/commands/install.rs:81-274): empty batches
return `Ok` immediately; otherwise the workers run, and after the join
barrier a non-empty error list yields `Err(CommandFailed(...))` with the
failure count, else `Ok`. -/
def cloneRepositories (parallelCount : Nat) (env : CloneEnv) (repos : List String) :
    Except BasecampError Unit :=
  if repos.isEmpty then Except.ok ()
  else
    let s := cloneBatchState parallelCount env repos
    if s.errors.isEmpty then Except.ok ()
    else
      Except.error (BasecampError.commandFailed
        (toString s.errors.length ++ " repositories failed to clone"))

/-- The `CommandFailed` message of `install_new_repositories`
(src/commands/add.rs:330-334): the failure count followed by the
comma-separated failed repository names. -/
def commandFailedCloneMsg (errors : List (String × String)) : String :=
  toString errors.length ++ " repositories failed to clone: "
    ++ joinSep ", " (errors.map Prod.fst)

/-- `install_new_repositories` (src/commands/add.rs:177-346): same worker
pool as `clone_repositories` (the parallel count is clamped by `min` twice,
lines 196 and 202), but the failure message also lists the failed names. -/
def installNewRepositories (parallelCount : Nat) (env : CloneEnv) (repos : List String) :
    Except BasecampError Unit :=
  if repos.isEmpty then Except.ok ()
  else
    let workers :=
      effectiveParallelism (effectiveParallelism parallelCount repos.length) repos.length
    let s := processJobs env (processedJobs workers repos)
    if s.errors.isEmpty then Except.ok ()
    else Except.error (BasecampError.commandFailed (commandFailedCloneMsg s.errors))

/-! ## config.rs: the configuration store -/

/-- The configuration (src/config.rs:28-34): the GitHub base URL and the
map of codebase names to repository lists, modelled as an association
list. -/
structure Config where
  githubUrl : String
  codebases : List (String × List String)
deriving DecidableEq

/-- `HashMap::get` on the codebase map. -/
def lookupCodebase : List (String × List String) → String → Option (List String)
  | [], _ => none
  | (k, v) :: rest, cb => if k = cb then some v else lookupCodebase rest cb

/-- Writing one codebase entry back into the map, inserting it when
absent (`HashMap::entry(..).or_default()` followed by mutation, and
`get_mut` followed by mutation). -/
def setCodebase : List (String × List String) → String → List String →
    List (String × List String)
  | [], cb, repos => [(cb, repos)]
  | (k, v) :: rest, cb, repos =>
      if k = cb then (k, repos) :: rest else (k, v) :: setCodebase rest cb repos

/-- The repository list a codebase currently maps to, empty when the entry
is absent (the view `entry(..).or_default()` starts from). -/
def currentRepos (cfg : Config) (cb : String) : List String :=
  (lookupCodebase cfg.codebases cb).getD []

/-- The loop body of `Config::add_repositories` (src/config.rs:182-190):
skip a requested name already in the evolving list, else push it and record
it as added.  Returns the final list and the added names in input order. -/
def addRepositoriesGo : List String → List String → List String × List String
  | current, [] => (current, [])
  | current, r :: rest =>
      if r ∈ current then addRepositoriesGo current rest
      else
        let p := addRepositoriesGo (current ++ [r]) rest
        (p.1, r :: p.2)

/-- `Config::add_repositories` (src/config.rs:177-194): always returns
`Ok` with the list of names actually appended, mutating the codebase
entry (created when absent). -/
def Config.addRepositories (cfg : Config) (cb : String) (repos : List String) :
    Except BasecampError (List String) × Config :=
  let p := addRepositoriesGo (currentRepos cfg cb) repos
  (Except.ok p.2, { cfg with codebases := setCodebase cfg.codebases cb p.1 })

/-- The loop body of `Config::remove_repositories` (src/config.rs:203-212):
error out at the first requested name absent from the evolving list,
leaving the mutations made so far in place; otherwise retain all elements
different from the name. -/
def removeRepositoriesGo (cb : String) :
    List String → List String → Option BasecampError × List String
  | current, [] => (none, current)
  | current, r :: rest =>
      if r ∈ current then
        removeRepositoriesGo cb (current.filter (fun x => x != r)) rest
      else (some (BasecampError.repositoryNotFound r cb), current)

/-- `Config::remove_repositories` (src/config.rs:197-215): `CodebaseNotFound`
when the codebase is absent; otherwise run the loop and write back whatever
list state the loop reached, even on error (`&mut self` mutation survives
the early return). -/
def Config.removeRepositories (cfg : Config) (cb : String) (repos : List String) :
    Option BasecampError × Config :=
  match lookupCodebase cfg.codebases cb with
  | none => (some (BasecampError.codebaseNotFound cb), cfg)
  | some current =>
      let p := removeRepositoriesGo cb current repos
      (p.1, { cfg with codebases := setCodebase cfg.codebases cb p.2 })

/-! ## add.rs: the add-then-install-then-rollback pipeline -/

/-- `get_failed_repositories` (src/commands/add.rs:160-174): split the
`CommandFailed` message on `": "`, take the second part, split it on `", "`
and trim each token; any other error yields the empty list. -/
def getFailedRepositories : BasecampError → List String
  | BasecampError.commandFailed msg =>
      match (rsSplit msg ": ")[1]? with
      | some part => (rsSplit part ", ").map rsTrim
      | none => []
  | _ => []

/-- The add-then-install portion of `commands/add.rs execute`
(src/commands/add.rs:54-151), after the configuration is loaded: add the
requested repositories (persisting the updated configuration), install the
newly added ones with the fixed parallel count 4, and on installation
failure remove the failed names — recovered from the `CommandFailed`
message, or all added names for another error kind — from a freshly loaded
copy of the persisted configuration, persisting the rollback when the
removal succeeds.  Returns the configuration that is persisted at the
end. -/
def addThenInstall (cfg : Config) (cb : String) (repositories : List String)
    (env : CloneEnv) : Config :=
  let p := Config.addRepositories cfg cb repositories
  let cfg1 := p.2
  let added := match p.1 with | Except.ok a => a | Except.error _ => []
  if added.isEmpty then cfg1
  else
    match installNewRepositories 4 env added with
    | Except.ok _ => cfg1
    | Except.error e =>
        let failedRepos :=
          match e with
          | BasecampError.commandFailed _ => getFailedRepositories e
          | _ => added
        if failedRepos.isEmpty then cfg1
        else
          let q := Config.removeRepositories cfg1 cb failedRepos
          match q.1 with
          | none => q.2
          | some _ => cfg1

/-! ## Characterization of the worker-pool state -/

/-- Whether an outcome is the already-present skip. -/
def isAlreadyOutcome : CloneOutcome → Bool
  | CloneOutcome.alreadyPresent => true
  | _ => false

/-- Whether an outcome is a successful clone. -/
def isClonedOutcome : CloneOutcome → Bool
  | CloneOutcome.cloned => true
  | _ => false

/-- Whether an outcome is a clone failure. -/
def isFailedOutcome : CloneOutcome → Bool
  | CloneOutcome.failed _ => true
  | _ => false

/-- The reason carried by a failure outcome. -/
def failureReason : CloneOutcome → String
  | CloneOutcome.failed m => m
  | _ => ""

@[simp] lemma isAlreadyOutcome_already : isAlreadyOutcome CloneOutcome.alreadyPresent = true := rfl

@[simp] lemma isAlreadyOutcome_cloned : isAlreadyOutcome CloneOutcome.cloned = false := rfl

@[simp] lemma isAlreadyOutcome_failed (m : String) :
    isAlreadyOutcome (CloneOutcome.failed m) = false := rfl

@[simp] lemma isClonedOutcome_already : isClonedOutcome CloneOutcome.alreadyPresent = false := rfl

@[simp] lemma isClonedOutcome_cloned : isClonedOutcome CloneOutcome.cloned = true := rfl

@[simp] lemma isClonedOutcome_failed (m : String) :
    isClonedOutcome (CloneOutcome.failed m) = false := rfl

@[simp] lemma isFailedOutcome_already : isFailedOutcome CloneOutcome.alreadyPresent = false := rfl

@[simp] lemma isFailedOutcome_cloned : isFailedOutcome CloneOutcome.cloned = false := rfl

@[simp] lemma isFailedOutcome_failed (m : String) :
    isFailedOutcome (CloneOutcome.failed m) = true := rfl

@[simp] lemma failureReason_failed (m : String) : failureReason (CloneOutcome.failed m) = m := rfl

lemma processedJobs_nil (workers : Nat) : processedJobs workers [] = [] := by
  unfold processedJobs
  split <;> rfl

lemma cloneBatchState_of_pos (parallelCount : Nat) (env : CloneEnv)
    (repos : List String) (hp : 1 ≤ parallelCount) (hne : repos ≠ []) :
    cloneBatchState parallelCount env repos = processJobs env repos := by
  have hlen : 1 ≤ repos.length := by
    cases repos with
    | nil => exact absurd rfl hne
    | cons a t => simp
  have hw : effectiveParallelism parallelCount repos.length ≠ 0 := by
    unfold effectiveParallelism
    omega
  unfold cloneBatchState processedJobs
  simp [hw]

lemma foldl_processRepo (env : CloneEnv) (order : List String) (s : InstallState) :
    order.foldl (processRepo env) s =
      ⟨ s.alreadyInstalled ++ order.filter (fun r => isAlreadyOutcome (env r)),
        s.clonedRepos ++ order.filter (fun r => isClonedOutcome (env r)),
        s.errors ++ (order.filter (fun r => isFailedOutcome (env r))).map
          (fun r => (r, cloneErrorMsg r (failureReason (env r)))),
        s.completed + order.length ⟩ := by
  induction order generalizing s with
  | nil => simp
  | cons r rest ih =>
      cases h : env r with
      | alreadyPresent =>
          simp [processRepo, h, ih, List.filter_cons, isAlreadyOutcome,
            isClonedOutcome, isFailedOutcome, List.append_assoc]
          omega
      | cloned =>
          simp [processRepo, h, ih, List.filter_cons, isAlreadyOutcome,
            isClonedOutcome, isFailedOutcome, List.append_assoc]
          omega
      | failed reason =>
          simp [processRepo, h, ih, List.filter_cons, isAlreadyOutcome,
            isClonedOutcome, isFailedOutcome, failureReason, List.append_assoc]
          omega

lemma processJobs_eq (env : CloneEnv) (order : List String) :
    processJobs env order =
      ⟨ order.filter (fun r => isAlreadyOutcome (env r)),
        order.filter (fun r => isClonedOutcome (env r)),
        (order.filter (fun r => isFailedOutcome (env r))).map
          (fun r => (r, cloneErrorMsg r (failureReason (env r)))),
        order.length ⟩ := by
  simpa [initialInstallState] using foldl_processRepo env order initialInstallState

lemma outcome_filter_lengths (env : CloneEnv) (order : List String) :
    (order.filter (fun r => isAlreadyOutcome (env r))).length
      + (order.filter (fun r => isClonedOutcome (env r))).length
      + (order.filter (fun r => isFailedOutcome (env r))).length = order.length := by
  induction order with
  | nil => simp
  | cons r rest ih =>
      cases h : env r <;> simp [List.filter_cons, h] <;> omega

/-! ## Theorems for C1, C2, C6 -/

/-- C1: for every batch and every schedule (any permutation of the batch the
concurrent workers may take jobs in), the final counts partition the batch —
already-present plus cloned plus failed equals the total, the code's derived
newly-installed count equals the number of actual successful clones — and
every requested name lands in exactly one of the three buckets. -/
theorem clone_batch_partition (env : CloneEnv) (repos order : List String)
    (hperm : List.Perm order repos) :
    let s := processJobs env order
    s.alreadyInstalled.length + s.clonedRepos.length + s.errors.length = repos.length
    ∧ newlyInstalledCount repos.length s = s.clonedRepos.length
    ∧ ∀ r ∈ repos,
        (r ∈ s.alreadyInstalled ∧ r ∉ s.clonedRepos ∧ (∀ m, (r, m) ∉ s.errors))
        ∨ (r ∉ s.alreadyInstalled ∧ r ∈ s.clonedRepos ∧ (∀ m, (r, m) ∉ s.errors))
        ∨ (r ∉ s.alreadyInstalled ∧ r ∉ s.clonedRepos ∧ (∃ m, (r, m) ∈ s.errors)) := by
  intro s
  have hs := processJobs_eq env order
  have hlen : s.alreadyInstalled.length + s.clonedRepos.length + s.errors.length
      = repos.length := by
    rw [show s = processJobs env order from rfl, hs]
    simpa [hperm.length_eq] using outcome_filter_lengths env order
  refine ⟨hlen, by unfold newlyInstalledCount; omega, ?_⟩
  intro r hr
  have hro : r ∈ order := hperm.mem_iff.mpr hr
  have hmemA : r ∈ s.alreadyInstalled ↔ isAlreadyOutcome (env r) = true := by
    rw [show s = processJobs env order from rfl, hs]
    simp [List.mem_filter, hro]
  have hmemC : r ∈ s.clonedRepos ↔ isClonedOutcome (env r) = true := by
    rw [show s = processJobs env order from rfl, hs]
    simp [List.mem_filter, hro]
  have hmemE : ∀ m, (r, m) ∈ s.errors ↔
      (isFailedOutcome (env r) = true ∧ m = cloneErrorMsg r (failureReason (env r))) := by
    intro m
    rw [show s = processJobs env order from rfl, hs]
    simp only [List.mem_map, List.mem_filter]
    constructor
    · rintro ⟨x, ⟨-, hx⟩, hxm⟩
      have hx1 : x = r := congrArg Prod.fst hxm
      subst hx1
      exact ⟨hx, (congrArg Prod.snd hxm).symm⟩
    · rintro ⟨hf, hm⟩
      exact ⟨r, ⟨hro, hf⟩, by rw [hm]⟩
  cases h : env r with
  | alreadyPresent =>
      refine Or.inl ⟨?_, ?_, ?_⟩
      · rw [hmemA, h]; rfl
      · rw [hmemC, h]; simp [isClonedOutcome]
      · intro m hm
        have := (hmemE m).mp hm
        rw [h] at this
        simpa [isFailedOutcome] using this.1
  | cloned =>
      refine Or.inr (Or.inl ⟨?_, ?_, ?_⟩)
      · rw [hmemA, h]; simp [isAlreadyOutcome]
      · rw [hmemC, h]; rfl
      · intro m hm
        have := (hmemE m).mp hm
        rw [h] at this
        simpa [isFailedOutcome] using this.1
  | failed reason =>
      refine Or.inr (Or.inr ⟨?_, ?_, ?_⟩)
      · rw [hmemA, h]; simp [isAlreadyOutcome]
      · rw [hmemC, h]; simp [isClonedOutcome]
      · exact ⟨cloneErrorMsg r (failureReason (env r)), (hmemE _).mpr ⟨by rw [h]; rfl, rfl⟩⟩

/-- Environment for the C1 witness: one repository already present, one
cloned, one failing. -/
def envWitnessBatch : CloneEnv := fun repo =>
  if repo = "ui" then CloneOutcome.alreadyPresent
  else if repo = "api" then CloneOutcome.cloned
  else CloneOutcome.failed "network error"

/-- Witness for C1: the partition invariant evaluated on the concrete batch
`["ui", "api", "db"]` processed in the schedule `["api", "ui", "db"]`. -/
theorem clone_batch_partition_witness :
    (let s := processJobs envWitnessBatch ["api", "ui", "db"]
     s.alreadyInstalled.length + s.clonedRepos.length + s.errors.length
        = (["ui", "api", "db"] : List String).length
     ∧ newlyInstalledCount (["ui", "api", "db"] : List String).length s = s.clonedRepos.length
     ∧ ∀ r ∈ (["ui", "api", "db"] : List String),
        (r ∈ s.alreadyInstalled ∧ r ∉ s.clonedRepos ∧ (∀ m, (r, m) ∉ s.errors))
        ∨ (r ∉ s.alreadyInstalled ∧ r ∈ s.clonedRepos ∧ (∀ m, (r, m) ∉ s.errors))
        ∨ (r ∉ s.alreadyInstalled ∧ r ∉ s.clonedRepos ∧ (∃ m, (r, m) ∈ s.errors))) :=
  clone_batch_partition envWitnessBatch ["ui", "api", "db"] ["api", "ui", "db"] (by decide)

/-- Environment where every clone would succeed. -/
def envAllClone : CloneEnv := fun _ => CloneOutcome.cloned

/-- C2 counterexample: with caller-supplied parallelism 0 against a 3-job
batch, the worker count is `min(0, 3) = 0`, not the 1 the claimed
minimum-of-1 clamp would give; no job is processed (the completed count
stays 0, not 3), yet the function returns `Ok` — and the derived
newly-installed count even reports all 3 repositories as newly
installed. -/
theorem clone_repositories_zero_workers :
    effectiveParallelism 0 3 = 0
    ∧ effectiveParallelism 0 3 ≠ max 1 (min 0 3)
    ∧ cloneBatchState 0 envAllClone ["a", "b", "c"] = initialInstallState
    ∧ (cloneBatchState 0 envAllClone ["a", "b", "c"]).completed = 0
    ∧ (cloneBatchState 0 envAllClone ["a", "b", "c"]).completed
        ≠ (["a", "b", "c"] : List String).length
    ∧ cloneRepositories 0 envAllClone ["a", "b", "c"] = Except.ok ()
    ∧ newlyInstalledCount 3 (cloneBatchState 0 envAllClone ["a", "b", "c"]) = 3 := by
  refine ⟨rfl, by decide, rfl, rfl, by decide, rfl, rfl⟩

/-- C2 as amended: the number of workers spawned equals
`min(parallelism, number of jobs)` with no minimum-of-1 clamp — in
particular it never exceeds the job count — and whenever the caller passes
parallelism at least 1 every job in the batch is processed; with
parallelism 0 no worker is spawned and no job is processed. -/
theorem clone_repositories_worker_clamp (parallelCount : Nat) (env : CloneEnv)
    (repos : List String) :
    effectiveParallelism parallelCount repos.length = min parallelCount repos.length
    ∧ effectiveParallelism parallelCount repos.length ≤ repos.length
    ∧ (1 ≤ parallelCount → (cloneBatchState parallelCount env repos).completed = repos.length)
    ∧ (parallelCount = 0 → (cloneBatchState parallelCount env repos).completed = 0) := by
  refine ⟨rfl, Nat.min_le_right _ _, ?_, ?_⟩
  · intro hp
    by_cases hne : repos = []
    · subst hne
      simp [cloneBatchState, processedJobs_nil, processJobs, initialInstallState]
    · rw [cloneBatchState_of_pos parallelCount env repos hp hne, processJobs_eq]
  · intro hp
    subst hp
    have hw : effectiveParallelism 0 repos.length = 0 := by
      unfold effectiveParallelism
      omega
    unfold cloneBatchState
    rw [hw]
    simp [processedJobs, processJobs, initialInstallState]

/-- Witness for the amended C2: parallelism 100 against the concrete 3-job
batch `["a", "b", "c"]` spawns `min(100, 3) = 3` workers and processes all
3 jobs. -/
theorem clone_repositories_worker_clamp_witness :
    effectiveParallelism 100 (["a", "b", "c"] : List String).length
        = min 100 (["a", "b", "c"] : List String).length
    ∧ effectiveParallelism 100 (["a", "b", "c"] : List String).length
        ≤ (["a", "b", "c"] : List String).length
    ∧ (1 ≤ 100 →
        (cloneBatchState 100 envAllClone ["a", "b", "c"]).completed
          = (["a", "b", "c"] : List String).length)
    ∧ ((100 : Nat) = 0 → (cloneBatchState 100 envAllClone ["a", "b", "c"]).completed = 0) :=
  clone_repositories_worker_clamp 100 envAllClone ["a", "b", "c"]

/-- C6: when at least one worker is spawned (`parallelism ≥ 1`, as every
caller passes), `clone_repositories` returns an error exactly when some
repository in the batch failed to clone; any returned error is a
`CommandFailed`; the worker loop is never aborted by a failure — the
completed count always reaches the batch size — and every failed repository
is captured in the shared error list together with its reason. -/
theorem clone_repositories_error_iff (parallelCount : Nat) (env : CloneEnv)
    (repos : List String) (hp : 1 ≤ parallelCount) :
    ((∃ e, cloneRepositories parallelCount env repos = Except.error e)
        ↔ ∃ r ∈ repos, isFailedOutcome (env r) = true)
    ∧ (∀ e, cloneRepositories parallelCount env repos = Except.error e →
        ∃ m, e = BasecampError.commandFailed m)
    ∧ (cloneBatchState parallelCount env repos).completed = repos.length
    ∧ (∀ r ∈ repos, isFailedOutcome (env r) = true →
        (r, cloneErrorMsg r (failureReason (env r)))
          ∈ (cloneBatchState parallelCount env repos).errors) := by
  by_cases hne : repos = []
  · subst hne
    refine ⟨?_, ?_, ?_, ?_⟩
    · simp [cloneRepositories]
    · intro e he
      simp [cloneRepositories] at he
    · simp [cloneBatchState, processedJobs_nil, processJobs, initialInstallState]
    · intro r hr
      simp at hr
  · have hstate := cloneBatchState_of_pos parallelCount env repos hp hne
    have hchar := processJobs_eq env repos
    have herr : (cloneBatchState parallelCount env repos).errors
        = (repos.filter (fun r => isFailedOutcome (env r))).map
            (fun r => (r, cloneErrorMsg r (failureReason (env r)))) := by
      rw [hstate, hchar]
    have herrEmpty : (cloneBatchState parallelCount env repos).errors = []
        ↔ ¬ ∃ r ∈ repos, isFailedOutcome (env r) = true := by
      rw [herr]
      simp [List.filter_eq_nil_iff]
    have hrepos : repos.isEmpty = false := by
      cases repos with
      | nil => exact absurd rfl hne
      | cons a t => rfl
    refine ⟨?_, ?_, ?_, ?_⟩
    · constructor
      · rintro ⟨e, he⟩
        by_contra hno
        have : (cloneBatchState parallelCount env repos).errors = [] := herrEmpty.mpr hno
        unfold cloneRepositories at he
        rw [hrepos] at he
        simp [this] at he
      · intro hex
        have hnotEmpty : (cloneBatchState parallelCount env repos).errors ≠ [] := by
          intro hcontr
          exact (herrEmpty.mp hcontr) hex
        refine ⟨BasecampError.commandFailed
          (toString (cloneBatchState parallelCount env repos).errors.length
            ++ " repositories failed to clone"), ?_⟩
        unfold cloneRepositories
        rw [hrepos]
        simp [List.isEmpty_iff, hnotEmpty]
    · intro e he
      unfold cloneRepositories at he
      rw [hrepos] at he
      simp only [Bool.false_eq_true, if_false] at he
      by_cases hz : (cloneBatchState parallelCount env repos).errors.isEmpty
      · simp [hz] at he
      · simp only [hz, Bool.false_eq_true, if_false] at he
        exact ⟨_, (Except.error.injEq _ _).mp he.symm⟩
    · rw [hstate, hchar]
    · intro r hr hf
      rw [herr]
      exact List.mem_map.mpr ⟨r, List.mem_filter.mpr ⟨hr, hf⟩, rfl⟩

/-- Environment for the C6 witness: exactly the repository `"bad"` fails. -/
def envBadFails : CloneEnv := fun repo =>
  if repo = "bad" then CloneOutcome.failed "remote not found" else CloneOutcome.cloned

/-- Witness for C6: the error-iff-failure property evaluated with one worker
on the concrete batch `["good", "bad"]`. -/
theorem clone_repositories_error_iff_witness :
    ((∃ e, cloneRepositories 1 envBadFails ["good", "bad"] = Except.error e)
        ↔ ∃ r ∈ (["good", "bad"] : List String), isFailedOutcome (envBadFails r) = true)
    ∧ (∀ e, cloneRepositories 1 envBadFails ["good", "bad"] = Except.error e →
        ∃ m, e = BasecampError.commandFailed m)
    ∧ (cloneBatchState 1 envBadFails ["good", "bad"]).completed
        = (["good", "bad"] : List String).length
    ∧ (∀ r ∈ (["good", "bad"] : List String), isFailedOutcome (envBadFails r) = true →
        (r, cloneErrorMsg r (failureReason (envBadFails r)))
          ∈ (cloneBatchState 1 envBadFails ["good", "bad"]).errors) :=
  clone_repositories_error_iff 1 envBadFails ["good", "bad"] (by decide)

/-! ## Lemmas about the configuration map -/

lemma lookup_setCodebase (m : List (String × List String)) (cb : String)
    (repos : List String) : lookupCodebase (setCodebase m cb repos) cb = some repos := by
  induction m with
  | nil => simp [setCodebase, lookupCodebase]
  | cons kv rest ih =>
      obtain ⟨k, v⟩ := kv
      by_cases hk : k = cb
      · simp [setCodebase, lookupCodebase, hk]
      · simp [setCodebase, lookupCodebase, hk, ih]

/-! ## Theorems for C8, C9 -/

lemma removeRepositoriesGo_subset (cb : String) (names : List String) :
    ∀ current, (removeRepositoriesGo cb current names).2 ⊆ current := by
  induction names with
  | nil =>
      intro current
      simp [removeRepositoriesGo]
  | cons r rest ih =>
      intro current
      by_cases hr : r ∈ current
      · calc (removeRepositoriesGo cb current (r :: rest)).2
            = (removeRepositoriesGo cb (current.filter (fun x => x != r)) rest).2 := by
              simp [removeRepositoriesGo, hr]
          _ ⊆ current.filter (fun x => x != r) := ih _
          _ ⊆ current := (List.filter_sublist _).subset
      · simp [removeRepositoriesGo, hr]

lemma removeRepositoriesGo_error (cb : String) (names : List String) :
    ∀ (current : List String) (bad : String),
      (removeRepositoriesGo cb current names).1
          = some (BasecampError.repositoryNotFound bad cb) →
      ∃ pre rest, names = pre ++ bad :: rest
        ∧ bad ∉ (removeRepositoriesGo cb current names).2
        ∧ ∀ n ∈ pre, n ∈ current ∧ n ∉ (removeRepositoriesGo cb current names).2 := by
  induction names with
  | nil =>
      intro current bad h
      simp [removeRepositoriesGo] at h
  | cons r rest ih =>
      intro current bad h
      by_cases hr : r ∈ current
      · have hstep : removeRepositoriesGo cb current (r :: rest)
            = removeRepositoriesGo cb (current.filter (fun x => x != r)) rest := by
          simp [removeRepositoriesGo, hr]
        rw [hstep] at h
        obtain ⟨pre, tail, htail, hbad, hpre⟩ := ih _ bad h
        refine ⟨r :: pre, tail, by rw [htail]; rfl, by rw [hstep]; exact hbad, ?_⟩
        intro n hn
        rcases List.mem_cons.mp hn with hn | hn
        · subst hn
          refine ⟨hr, ?_⟩
          rw [hstep]
          intro hmem
          have := removeRepositoriesGo_subset cb rest _ hmem
          simp [List.mem_filter] at this
        · obtain ⟨hmem, hnot⟩ := hpre n hn
          have hcur : n ∈ current := (List.filter_sublist _).subset hmem
          exact ⟨hcur, by rw [hstep]; exact hnot⟩
      · have hstep : removeRepositoriesGo cb current (r :: rest)
            = (some (BasecampError.repositoryNotFound r cb), current) := by
          simp [removeRepositoriesGo, hr]
        rw [hstep] at h
        simp only [Option.some.injEq, BasecampError.repositoryNotFound.injEq] at h
        obtain ⟨hrbad, -⟩ := h
        subst hrbad
        refine ⟨[], rest, rfl, ?_, by intro n hn; simp at hn⟩
        rw [hstep]
        exact hr

/-- C8: when `remove_repositories` returns `RepositoryNotFound` for some
name, the input list splits as `pre ++ bad :: rest` around the offending
name, every name in `pre` was in the codebase's repository list before the
call and is no longer in it afterwards, and the offending name is absent
from the resulting list: the configuration is left partially mutated on
error, not unchanged. -/
theorem remove_repositories_partial_mutation (cfg : Config) (cb : String)
    (names : List String) (bad : String)
    (h : (Config.removeRepositories cfg cb names).1
        = some (BasecampError.repositoryNotFound bad cb)) :
    ∃ pre rest, names = pre ++ bad :: rest
      ∧ bad ∉ currentRepos (Config.removeRepositories cfg cb names).2 cb
      ∧ ∀ n ∈ pre, n ∈ currentRepos cfg cb
          ∧ n ∉ currentRepos (Config.removeRepositories cfg cb names).2 cb := by
  cases hl : lookupCodebase cfg.codebases cb with
  | none =>
      unfold Config.removeRepositories at h
      rw [hl] at h
      simp at h
  | some current =>
      have hres : Config.removeRepositories cfg cb names
          = ((removeRepositoriesGo cb current names).1,
             { cfg with codebases :=
                 setCodebase cfg.codebases cb (removeRepositoriesGo cb current names).2 }) := by
        unfold Config.removeRepositories
        rw [hl]
      have hgo : (removeRepositoriesGo cb current names).1
          = some (BasecampError.repositoryNotFound bad cb) := by
        rw [hres] at h
        exact h
      obtain ⟨pre, rest, hsplit, hbad, hpre⟩ := removeRepositoriesGo_error cb names current bad hgo
      have hafter : currentRepos (Config.removeRepositories cfg cb names).2 cb
          = (removeRepositoriesGo cb current names).2 := by
        rw [hres]
        unfold currentRepos
        simp [lookup_setCodebase]
      have hbefore : currentRepos cfg cb = current := by
        unfold currentRepos
        rw [hl]
        rfl
      refine ⟨pre, rest, hsplit, by rw [hafter]; exact hbad, ?_⟩
      intro n hn
      obtain ⟨hin, hout⟩ := hpre n hn
      exact ⟨by rw [hbefore]; exact hin, by rw [hafter]; exact hout⟩

/-- A concrete configuration for the C8 witness. -/
def cfgBackend : Config := ⟨"https://github.com/acme", [("backend", ["x", "y"])]⟩

/-- Witness for C8: removing `["x", "z"]` from a codebase holding
`["x", "y"]` fails on `"z"`, and `"x"` — processed before the failure — has
been removed and stays removed. -/
theorem remove_repositories_partial_mutation_witness :
    ∃ pre rest, (["x", "z"] : List String) = pre ++ "z" :: rest
      ∧ "z" ∉ currentRepos (Config.removeRepositories cfgBackend "backend" ["x", "z"]).2 "backend"
      ∧ ∀ n ∈ pre, n ∈ currentRepos cfgBackend "backend"
          ∧ n ∉ currentRepos
              (Config.removeRepositories cfgBackend "backend" ["x", "z"]).2 "backend" :=
  remove_repositories_partial_mutation cfgBackend "backend" ["x", "z"] "z" (by decide)

lemma addRepositoriesGo_spec (names : List String) :
    ∀ current : List String,
      (addRepositoriesGo current names).1 = current ++ (addRepositoriesGo current names).2
      ∧ List.Sublist (addRepositoriesGo current names).2 names
      ∧ (∀ x ∈ (addRepositoriesGo current names).2, x ∉ current)
      ∧ (∀ x ∈ names, x ∈ (addRepositoriesGo current names).1)
      ∧ (addRepositoriesGo current names).2.Nodup
      ∧ (current.Nodup → (addRepositoriesGo current names).1.Nodup) := by
  induction names with
  | nil =>
      intro current
      simp [addRepositoriesGo]
  | cons r rest ih =>
      intro current
      by_cases hr : r ∈ current
      · have hstep : addRepositoriesGo current (r :: rest) = addRepositoriesGo current rest := by
          simp [addRepositoriesGo, hr]
        obtain ⟨h1, h2, h3, h4, h5, h6⟩ := ih current
        rw [hstep]
        refine ⟨h1, h2.cons _, h3, ?_, h5, h6⟩
        intro x hx
        rcases List.mem_cons.mp hx with hx | hx
        · subst hx
          rw [h1]
          exact List.mem_append.mpr (Or.inl hr)
        · exact h4 x hx
      · have hstep : addRepositoriesGo current (r :: rest)
            = ((addRepositoriesGo (current ++ [r]) rest).1,
               r :: (addRepositoriesGo (current ++ [r]) rest).2) := by
          simp [addRepositoriesGo, hr]
        obtain ⟨h1, h2, h3, h4, h5, h6⟩ := ih (current ++ [r])
        rw [hstep]
        refine ⟨?_, h2.cons₂ _, ?_, ?_, ?_, ?_⟩
        · simpa [List.append_assoc] using h1
        · intro x hx
          rcases List.mem_cons.mp hx with hx | hx
          · subst hx
            exact hr
          · intro hxc
            exact h3 x hx (List.mem_append.mpr (Or.inl hxc))
        · intro x hx
          rcases List.mem_cons.mp hx with hx | hx
          · subst hx
            rw [h1]
            exact List.mem_append.mpr (Or.inl (List.mem_append.mpr (Or.inr (by simp))))
          · exact h4 x hx
        · refine List.nodup_cons.mpr ⟨?_, h5⟩
          intro hcontra
          exact h3 r hcontra (List.mem_append.mpr (Or.inr (by simp)))
        · intro hnd
          exact h6 (by simp [List.nodup_append, hnd, hr])

/-- C9: `add_repositories` never returns an error; it creates the codebase
entry when absent, appends exactly the requested names not already present —
keeping their input order and never introducing a duplicate — skips the
rest, and returns exactly the appended sublist. -/
theorem add_repositories_never_fails (cfg : Config) (cb : String) (names : List String) :
    ∃ added : List String,
      (Config.addRepositories cfg cb names).1 = Except.ok added
      ∧ lookupCodebase (Config.addRepositories cfg cb names).2.codebases cb
          = some (currentRepos cfg cb ++ added)
      ∧ List.Sublist added names
      ∧ (∀ x ∈ added, x ∉ currentRepos cfg cb)
      ∧ (∀ x ∈ names, x ∈ currentRepos cfg cb ++ added)
      ∧ added.Nodup
      ∧ ((currentRepos cfg cb).Nodup → (currentRepos cfg cb ++ added).Nodup) := by
  obtain ⟨h1, h2, h3, h4, h5, h6⟩ := addRepositoriesGo_spec names (currentRepos cfg cb)
  refine ⟨(addRepositoriesGo (currentRepos cfg cb) names).2, rfl, ?_, h2, h3, ?_, h5, ?_⟩
  · show lookupCodebase
        (setCodebase cfg.codebases cb (addRepositoriesGo (currentRepos cfg cb) names).1) cb = _
    rw [lookup_setCodebase, h1]
  · intro x hx
    rw [← h1]
    exact h4 x hx
  · intro hnd
    rw [← h1]
    exact h6 hnd

/-- Witness for C9: adding `["x", "z", "x"]` to a codebase holding
`["x", "y"]` returns `Ok ["z"]` and yields the duplicate-free list
`["x", "y", "z"]`. -/
theorem add_repositories_never_fails_witness :
    ∃ added : List String,
      (Config.addRepositories cfgBackend "backend" ["x", "z", "x"]).1 = Except.ok added
      ∧ lookupCodebase (Config.addRepositories cfgBackend "backend" ["x", "z", "x"]).2.codebases
          "backend" = some (currentRepos cfgBackend "backend" ++ added)
      ∧ List.Sublist added ["x", "z", "x"]
      ∧ (∀ x ∈ added, x ∉ currentRepos cfgBackend "backend")
      ∧ (∀ x ∈ (["x", "z", "x"] : List String),
          x ∈ currentRepos cfgBackend "backend" ++ added)
      ∧ added.Nodup
      ∧ ((currentRepos cfgBackend "backend").Nodup →
          (currentRepos cfgBackend "backend" ++ added).Nodup) :=
  add_repositories_never_fails cfgBackend "backend" ["x", "z", "x"]

/-! ## Theorem for C7 -/

/-- Environment where exactly the repository `"b"` fails to clone. -/
def envOnlyBFails : CloneEnv := fun repo =>
  if repo = "b" then CloneOutcome.failed "authentication required" else CloneOutcome.cloned

lemma install_abc_only_b_fails :
    installNewRepositories 4 envOnlyBFails ["a", "b", "c"]
      = Except.error (BasecampError.commandFailed "1 repositories failed to clone: b") := by
  decide

lemma get_failed_of_b_msg :
    getFailedRepositories (BasecampError.commandFailed "1 repositories failed to clone: b")
      = ["b"] := by
  decide

lemma addRepositoriesGo_abc (prior : List String) (ha : "a" ∉ prior) (hb : "b" ∉ prior)
    (hc : "c" ∉ prior) :
    addRepositoriesGo prior ["a", "b", "c"] = (prior ++ ["a", "b", "c"], ["a", "b", "c"]) := by
  simp [addRepositoriesGo, ha, hb, hc, List.append_assoc]

/-- C7: in the compound add-then-install workflow, when among the newly
added repositories `["a", "b", "c"]` exactly `"b"` fails to clone, the
failed name is removed from the codebase's repository list in the persisted
configuration: the post-rollback list is the prior list extended by `"a"`
and `"c"`, it contains `"a"` and `"c"`, and it does not contain `"b"`. -/
theorem add_then_install_rollback (cfg : Config) (cb : String)
    (ha : "a" ∉ currentRepos cfg cb) (hb : "b" ∉ currentRepos cfg cb)
    (hc : "c" ∉ currentRepos cfg cb) :
    currentRepos (addThenInstall cfg cb ["a", "b", "c"] envOnlyBFails) cb
      = currentRepos cfg cb ++ ["a", "c"]
    ∧ "a" ∈ currentRepos (addThenInstall cfg cb ["a", "b", "c"] envOnlyBFails) cb
    ∧ "c" ∈ currentRepos (addThenInstall cfg cb ["a", "b", "c"] envOnlyBFails) cb
    ∧ "b" ∉ currentRepos (addThenInstall cfg cb ["a", "b", "c"] envOnlyBFails) cb := by
  have hgo := addRepositoriesGo_abc (currentRepos cfg cb) ha hb hc
  have hbmem : "b" ∈ currentRepos cfg cb ++ ["a", "b", "c"] :=
    List.mem_append.mpr (Or.inr (by decide))
  have hpriorFilter : (currentRepos cfg cb).filter (fun x => x != "b") = currentRepos cfg cb := by
    refine List.filter_eq_self.mpr ?_
    intro x hx
    rw [bne_iff_ne]
    intro hxb
    rw [hxb] at hx
    exact hb hx
  have hfilter : (currentRepos cfg cb ++ ["a", "b", "c"]).filter (fun x => x != "b")
      = currentRepos cfg cb ++ ["a", "c"] := by
    rw [List.filter_append, hpriorFilter]
    rfl
  have hfinal : addThenInstall cfg cb ["a", "b", "c"] envOnlyBFails
      = Config.mk cfg.githubUrl
          (setCodebase
            (setCodebase cfg.codebases cb (currentRepos cfg cb ++ ["a", "b", "c"])) cb
            (currentRepos cfg cb ++ ["a", "c"])) := by
    unfold addThenInstall Config.addRepositories Config.removeRepositories
    rw [hgo]
    simp only [install_abc_only_b_fails, get_failed_of_b_msg, lookup_setCodebase]
    simp [removeRepositoriesGo, hbmem, hfilter]
  have hcur : currentRepos (addThenInstall cfg cb ["a", "b", "c"] envOnlyBFails) cb
      = currentRepos cfg cb ++ ["a", "c"] := by
    rw [hfinal]
    unfold currentRepos
    rw [lookup_setCodebase]
    rfl
  refine ⟨hcur, ?_, ?_, ?_⟩
  · rw [hcur]
    exact List.mem_append.mpr (Or.inr (by decide))
  · rw [hcur]
    exact List.mem_append.mpr (Or.inr (by decide))
  · rw [hcur]
    simp only [List.mem_append]
    rintro (h | h)
    · exact hb h
    · exact absurd h (by decide)

/-- An initial configuration whose codebase map is empty. -/
def cfgFreshAcme : Config := ⟨"git@github.com:acme", []⟩

/-- Witness for C7: starting from an empty configuration, adding
`["a", "b", "c"]` to codebase `"frontend"` with only `"b"` failing to clone
persists the list `["a", "c"]` without `"b"`. -/
theorem add_then_install_rollback_witness :
    currentRepos (addThenInstall cfgFreshAcme "frontend" ["a", "b", "c"] envOnlyBFails) "frontend"
      = currentRepos cfgFreshAcme "frontend" ++ ["a", "c"]
    ∧ "a" ∈ currentRepos (addThenInstall cfgFreshAcme "frontend" ["a", "b", "c"] envOnlyBFails)
        "frontend"
    ∧ "c" ∈ currentRepos (addThenInstall cfgFreshAcme "frontend" ["a", "b", "c"] envOnlyBFails)
        "frontend"
    ∧ "b" ∉ currentRepos (addThenInstall cfgFreshAcme "frontend" ["a", "b", "c"] envOnlyBFails)
        "frontend" :=
  add_then_install_rollback cfgFreshAcme "frontend" (by decide) (by decide) (by decide)

end Basecamp
